import Mathlib

/-
Verification development for the ORDERBOOKTRACK repository (OB.py, oderbook.py).

The repository's core is: regex-based extraction of an order value and a
completion duration from announcement text, a ratio-based impact score,
per-symbol financial fetches with exception-to-sentinel conversion, and a
pandas ranking step.  Machine floats are modelled as exact rationals (every
numeric value appearing in the statements below is exactly representable as
a binary double, so float and rational arithmetic agree on them), Python
functions that can raise are modelled as `Except Unit`, and `None` as
`Option.none`.
-/

/-! ## A small regex engine

The two source files use `re.search` with a handful of fixed patterns.  Each
pattern is a plain concatenation of: literal alternations (`(₹|Rs\.?)`,
`(years?|months?)`, `crore`, ...), single-character classes (`\s`), optional
single-character classes (`\s?`), and greedy one-or-more classes (`[\d,\.]+`,
`\d+`, `\s+`), some of them capturing.  The matcher below implements Python
`re.search` semantics for exactly that fragment: leftmost starting position
wins, alternatives are tried in written order, quantifiers are greedy with
backtracking, and `re.IGNORECASE` is modelled as comparison of lowercased
characters (all letters involved are ASCII).  Captures are returned in
pattern order; `\d` and `\s` are modelled as their ASCII meaning. -/

deriving instance DecidableEq for Except

/-- Captured groups, in the order the capturing items occur in the pattern. -/
abbrev Caps := List (List Char)

/-- Case-insensitive "is `a` a prefix of `s`" (models `re.IGNORECASE` literal
matching; all literals in the repository's patterns are ASCII or `₹`). -/
def ciStarts : List Char → List Char → Bool
  | [], _ => true
  | _ :: _, [] => false
  | a :: as, c :: cs => (a.toLower == c.toLower) && ciStarts as cs

/-- One item of a pattern: literal alternation (capturing or not), a single
mandatory class character, an optional class character (greedy), or a greedy
one-or-more class run (capturing or not). -/
inductive Item where
  | lit (alts : List (List Char))
  | litC (alts : List (List Char))
  | one (p : Char → Bool)
  | opt (p : Char → Bool)
  | many (p : Char → Bool)
  | manyC (p : Char → Bool)

/-- Try the alternatives of a non-capturing literal alternation in order;
on success of the continuation keep the result, otherwise backtrack to the
next alternative. -/
def tryAlts (next : List Char → Option Caps) : List (List Char) → List Char → Option Caps
  | [], _ => none
  | a :: more, s =>
    if ciStarts a s then
      match next (s.drop a.length) with
      | some caps => some caps
      | none => tryAlts next more s
    else tryAlts next more s

/-- Capturing variant of `tryAlts`: the text matched by the chosen
alternative is prepended to the captures (Python returns the matched text,
not the pattern text, so differing case is preserved). -/
def tryAltsC (next : List Char → Option Caps) : List (List Char) → List Char → Option Caps
  | [], _ => none
  | a :: more, s =>
    if ciStarts a s then
      match next (s.drop a.length) with
      | some caps => some (s.take a.length :: caps)
      | none => tryAltsC next more s
    else tryAltsC next more s

/-- Greedy capturing one-or-more class run: try the run length `k` first and
backtrack to shorter nonempty runs. -/
def tryLens (next : List Char → Option Caps) (s : List Char) : Nat → Option Caps
  | 0 => none
  | k + 1 =>
    match next (s.drop (k + 1)) with
    | some caps => some (s.take (k + 1) :: caps)
    | none => tryLens next s k

/-- Non-capturing variant of `tryLens`. -/
def tryLensN (next : List Char → Option Caps) (s : List Char) : Nat → Option Caps
  | 0 => none
  | k + 1 =>
    match next (s.drop (k + 1)) with
    | some caps => some caps
    | none => tryLensN next s k

/-- Match a whole pattern at the start of `s`, returning its captures. -/
def matchItems : List Item → List Char → Option Caps
  | [], _ => some []
  | .lit alts :: rest, s => tryAlts (fun t => matchItems rest t) alts s
  | .litC alts :: rest, s => tryAltsC (fun t => matchItems rest t) alts s
  | .one p :: rest, s =>
    match s with
    | [] => none
    | c :: s' => if p c then matchItems rest s' else none
  | .opt p :: rest, s =>
    match s with
    | [] => matchItems rest []
    | c :: s' =>
      if p c then
        match matchItems rest s' with
        | some caps => some caps
        | none => matchItems rest (c :: s')
      else matchItems rest (c :: s')
  | .many p :: rest, s => tryLensN (fun t => matchItems rest t) s (s.takeWhile p).length
  | .manyC p :: rest, s => tryLens (fun t => matchItems rest t) s (s.takeWhile p).length

/-- `re.search`: try to match at each starting position, leftmost first. -/
def research (pat : List Item) : List Char → Option Caps
  | [] => matchItems pat []
  | c :: s' =>
    match matchItems pat (c :: s') with
    | some caps => some caps
    | none => research pat s'

/-- Python `\s` (ASCII part). -/
def ws (c : Char) : Bool :=
  c == ' ' || c == '\t' || c == '\n' || c == '\r' || c == '\x0b' || c == '\x0c'

/-- The class `[\d,\.]`. -/
def dcd (c : Char) : Bool := c.isDigit || c == ',' || c == '.'

/-- The class `[\d,]`. -/
def dc (c : Char) : Bool := c.isDigit || c == ','

/-- The class `\d`. -/
def digitB (c : Char) : Bool := c.isDigit

/-- `(₹|Rs\.?)` unfolded into its backtracking order: `₹`, `Rs.`, `Rs`. -/
def currencyAlts : List (List Char) := [['₹'], ['R', 's', '.'], ['R', 's']]

/-- OB.py:75 — `(₹|Rs\.?)\s?([\d,\.]+)\s?crore`. -/
def pat1 : List Item :=
  [.litC currencyAlts, .opt ws, .manyC dcd, .opt ws, .lit ["crore".data]]

/-- OB.py:76 — `([\d,\.]+)\s?crore`. -/
def pat2 : List Item := [.manyC dcd, .opt ws, .lit ["crore".data]]

/-- OB.py:77 — `(₹|Rs\.?)\s?([\d,\.]+)\s?lakh`. -/
def pat3 : List Item :=
  [.litC currencyAlts, .opt ws, .manyC dcd, .opt ws, .lit ["lakh".data]]

/-- oderbook.py:44 — `(₹|Rs\.?)\s?([\d,]+)\s?crore`. -/
def eovPat : List Item :=
  [.litC currencyAlts, .opt ws, .manyC dc, .opt ws, .lit ["crore".data]]

/-- `(years?|months?)` in backtracking order (greedy `s?` first). -/
def unitAltsOB : List (List Char) :=
  ["years".data, "year".data, "months".data, "month".data]

/-- `(year|years|month|months)` in written order — `year` is tried before
`years`, so on "2 years" this alternation matches just "year". -/
def unitAltsCT : List (List Char) :=
  ["year".data, "years".data, "month".data, "months".data]

/-- OB.py:93 — `within\s(\d+)\s(years?|months?)`. -/
def durPat1 : List Item :=
  [.lit ["within".data], .one ws, .manyC digitB, .one ws, .litC unitAltsOB]

/-- OB.py:94 — `over\s(\d+)\s(years?|months?)`. -/
def durPat2 : List Item :=
  [.lit ["over".data], .one ws, .manyC digitB, .one ws, .litC unitAltsOB]

/-- OB.py:95 — `period\s+of\s+(\d+)\s(years?|months?)`. -/
def durPat3 : List Item :=
  [.lit ["period".data], .many ws, .lit ["of".data], .many ws,
   .manyC digitB, .one ws, .litC unitAltsOB]

/-- OB.py:96 — `(\d+)\s(years?|months?)` (no keyword required). -/
def durPat4 : List Item := [.manyC digitB, .one ws, .litC unitAltsOB]

/-- oderbook.py:48 — `(within|over|in)\s(\d+)\s(year|years|month|months)`. -/
def ctPat : List Item :=
  [.litC ["within".data, "over".data, "in".data], .one ws, .manyC digitB,
   .one ws, .litC unitAltsCT]

/-! ## Numeric conversion -/

/-- `.replace(",", "")` on the captured group. -/
def stripCommas (s : List Char) : List Char := s.filter (fun c => c != ',')

/-- Value of a list of decimal digits. -/
def natOfDigits (s : List Char) : Nat :=
  s.foldl (fun a c => 10 * a + (c.toNat - 48)) 0

/-- Python `float(str)` restricted to the strings that can reach it here:
after comma-stripping the captured groups consist of digits and dots only.
`float` succeeds exactly when the string holds at least one digit and at most
one dot (so `""`, `"."` and `"1.2.3"` raise `ValueError`, modelled as
`none`); the value `intpart.fracpart` is returned exactly, as the rational
`(intpart * 10^k + fracpart) / 10^k` built with `mkRat` (core `Rat`
arithmetic is `irreducible`, so the value is assembled from `Nat`
arithmetic to keep the definition evaluable by the kernel). -/
def pyFloat (s : List Char) : Option ℚ :=
  if (∀ c ∈ s, c.isDigit = true ∨ c = '.') ∧ (∃ c ∈ s, c.isDigit = true) ∧
      s.count '.' ≤ 1 then
    some (mkRat
      (natOfDigits (s.takeWhile (fun c => c != '.')) *
          10 ^ ((s.dropWhile (fun c => c != '.')).drop 1).length +
        natOfDigits ((s.dropWhile (fun c => c != '.')).drop 1))
      (10 ^ ((s.dropWhile (fun c => c != '.')).drop 1).length))
  else none

/-- Round-half-even of the fraction `n / d` to an integer (Python `round`
tie behaviour), computed with integer arithmetic. -/
def rhalfeven (n : ℤ) (d : ℕ) : ℤ :=
  if 2 * (n - n.fdiv d * d) < (d : ℤ) then n.fdiv d
  else if (d : ℤ) < 2 * (n - n.fdiv d * d) then n.fdiv d + 1
  else if n.fdiv d % 2 = 0 then n.fdiv d else n.fdiv d + 1

/-- Python `round(x, 2)` on the exact value `x = q`: half-even rounding of
`q * 100`, divided back by `100`. -/
def round2 (q : ℚ) : ℚ := mkRat (rhalfeven (q.num * 100) q.den) 100

/-- Exact division of a rational by 100 (the `val / 100` of OB.py:84),
written with `mkRat` so that it evaluates by kernel reduction; the lemma
`divByHundred_eq` below checks it against `/`. -/
def divByHundred (q : ℚ) : ℚ := mkRat q.num (q.den * 100)

/-! ## Order value extraction -/

/-- The loop of OB.py:79-85: the first of `pat1, pat2, pat3` that matches
wins; the returned group is `m.group(len(m.groups()))`, i.e. the last
capture, and the flag records whether the winning pattern was the `lakh`
one. -/
def matchedNumeral (text : List Char) : Option (List Char × Bool) :=
  match research pat1 text with
  | some caps => some ((caps.getLast?).getD [], false)
  | none =>
    match research pat2 text with
    | some caps => some ((caps.getLast?).getD [], false)
    | none =>
      match research pat3 text with
      | some caps => some ((caps.getLast?).getD [], true)
      | none => none

/-- OB.py:73-86 `extract_total_order_value`.  `Except.error` models an
uncaught `ValueError` from `float`; `.ok none` is Python `None`. -/
def extract_total_order_value (text : String) : Except Unit (Option ℚ) :=
  match matchedNumeral text.data with
  | none => .ok none
  | some (g, isLakh) =>
    match pyFloat (stripCommas g) with
    | none => .error ()
    | some v => .ok (some (if isLakh then round2 (divByHundred v) else round2 v))

/-- oderbook.py:43-45 `extract_order_value`: a single crore pattern, group 2,
no rounding, no lakh handling. -/
def extract_order_value (text : String) : Except Unit (Option ℚ) :=
  match research eovPat text.data with
  | none => .ok none
  | some caps =>
    match pyFloat (stripCommas ((caps.getLast?).getD [])) with
    | none => .error ()
    | some v => .ok (some v)

/-! ## Duration extraction -/

/-- `f"{m.group(i+1)} {m.group(j+1)}"` over the captures. -/
def durFormat (i j : Nat) (caps : Caps) : String :=
  String.mk (caps.getD i [] ++ ' ' :: caps.getD j [])

/-- OB.py:91-102 `extract_total_duration`: four patterns in priority order,
sentinel "Not Found". -/
def extract_total_duration (text : String) : String :=
  match research durPat1 text.data with
  | some caps => durFormat 0 1 caps
  | none =>
    match research durPat2 text.data with
    | some caps => durFormat 0 1 caps
    | none =>
      match research durPat3 text.data with
      | some caps => durFormat 0 1 caps
      | none =>
        match research durPat4 text.data with
        | some caps => durFormat 0 1 caps
        | none => "Not Found"

/-- oderbook.py:47-49 `extract_completion_time`: one pattern, groups 2 and 3,
sentinel "Not Specified". -/
def extract_completion_time (text : String) : String :=
  match research ctPat text.data with
  | some caps => durFormat 1 2 caps
  | none => "Not Specified"

/-! ## Impact score and market-cap percentage -/

/-- oderbook.py:215 — `impact = min((order_val / market_cap_cr) * 5, 100)`. -/
def impact (order_val market_cap_cr : ℚ) : ℚ :=
  min (order_val / market_cap_cr * 5) 100

/-- The "Order % of Market Cap" cell: either the sentinel string "NA" or a
number. -/
inductive Pct where
  | NA
  | val (q : ℚ)
  deriving DecidableEq

/-- Python truthiness of an optional float: `None` and `0.0` are falsy. -/
def pyTruthy (x : Option ℚ) : Bool :=
  match x with
  | none => false
  | some v => v != 0

/-- OB.py:238-241 — `try: mcap = float(fin["Market Cap ₹Cr"].replace(",", ""))
except: mcap = None`.  A missing field (`None.replace` raises) or an
unparsable string both land in the `except` branch, i.e. `none`. -/
def parse_mcap (s : Option String) : Option ℚ :=
  match s with
  | none => none
  | some str => pyFloat (stripCommas str.data)

/-- OB.py:243 — `round((order_val / mcap) * 100, 2) if order_val and mcap
else "NA"`. -/
def order_pct (order_val mcap : Option ℚ) : Pct :=
  if pyTruthy order_val && pyTruthy mcap then
    .val (round2 (order_val.getD 0 / mcap.getD 0 * 100))
  else .NA

/-! ## Ranking (oderbook.py:232) -/

/-- A scored result row; only the fields the ranking step looks at. -/
structure ScoredRow where
  stock : String
  score : ℚ
  deriving DecidableEq

/-- Ascending comparison on the "Impact Score" column. -/
def byScore (a b : ScoredRow) : Prop := a.score ≤ b.score

instance : DecidableRel byScore :=
  fun a b => inferInstanceAs (Decidable (a.score ≤ b.score))

instance : IsTotal ScoredRow byScore := ⟨fun a b => le_total a.score b.score⟩

instance : IsTrans ScoredRow byScore := ⟨fun _ _ _ h₁ h₂ => le_trans h₁ h₂⟩

/-- oderbook.py:232 — `pd.DataFrame(results).sort_values("Impact Score",
ascending=False)`.  For a descending sort pandas' `nargsort` reverses the
values and their positions, runs an ascending argsort on the reversed
values, and reverses the resulting indexer again; on frames below numpy's
introsort cutoff the argsort kernel is a stable insertion sort.  The two
reversals cancel on ties, so the result is the stable descending sort:
reverse, stable ascending insertion sort by score, reverse. -/
def sort_values_desc (l : List ScoredRow) : List ScoredRow :=
  (l.reverse.insertionSort byScore).reverse

/-! ## Announcement fetch (oderbook.py:77-92, 131-247; OB.py:181-196) -/

/-- One announcement record as returned by the announcements endpoint. -/
structure Announcement where
  symbol : String
  sort_date : String
  deriving DecidableEq

/-- The observable outcome of `r = s.get(url, ...); r.json()`: either the
exchange rejected/blocked the request (the HTTP call or the JSON decoding
raises), or a (possibly empty) list of records was returned. -/
inductive NseResponse where
  | blocked
  | records (l : List Announcement)

/-- oderbook.py:78-92 `fetch_nse_orders_range` (OB.py:182-196 is identical):
no try/except inside, so a blocked request propagates its exception; on an
empty result `pd.DataFrame(r.json())` has no columns and the subsequent
`df["sort_date"]` raises `KeyError`, which also propagates. -/
def fetch_nse_orders_range : NseResponse → Except Unit (List Announcement)
  | .blocked => .error ()
  | .records [] => .error ()
  | .records (a :: rest) => .ok (a :: rest)

/-- What the user is shown for a fetch outcome. -/
inductive Surfaced where
  | table (rows : List Announcement)
  | blockedMsg
  deriving DecidableEq

/-- oderbook.py:131-247: the whole main block is wrapped in one
`try ... except Exception: st.error("NSE blocked or rate-limited the
request.")`, so every exception from the fetch surfaces as the blocked
message (in OB.py there is no handler at all and the exception is shown
raw); a successful fetch renders the announcements table. -/
def mainOutcome (resp : NseResponse) : Surfaced :=
  match fetch_nse_orders_range resp with
  | .error _ => .blockedMsg
  | .ok rows => .table rows

/-! ## Per-symbol financial fetch and the main loop (oderbook.py:94-229) -/

/-- Outcome of the quote-equity request for one symbol: any exception, or
the decoded metadata (either field may be missing from the JSON). -/
inductive EquityResponse where
  | err
  | ok (marketCap : Option ℚ) (industry : Option String)

/-- The record built by `fetch_nse_equity` on success. -/
structure Equity where
  marketCap : Option ℚ
  sector : String

/-- oderbook.py:94-109 `fetch_nse_equity`: the whole body is inside
`try ... except: return None`; `data["metadata"].get("marketCap")` may be
`None`, `data["metadata"].get("industry", "NA")` defaults to "NA". -/
def fetch_nse_equity : EquityResponse → Option Equity
  | .err => none
  | .ok mc ind => some ⟨mc, ind.getD "NA"⟩

/-- One appended result row (the fields relevant to the claims; the
presentation-only columns and display rounding are omitted). -/
structure ImpactRow where
  stock : String
  orderVal : ℚ
  impactScore : ℚ
  sector : String
  deriving DecidableEq

/-- oderbook.py:210-229, one announcement of the current symbol:
`order_val = extract_order_value(...)` (a raised exception propagates);
`if not order_val: continue` skips `None` and `0.0`; otherwise a row with
the impact score is appended. -/
def annRow (sym : String) (mcapCr : ℚ) (sector : String) (txt : String) :
    Except Unit (Option ImpactRow) :=
  match extract_order_value txt with
  | .error e => .error e
  | .ok none => .ok none
  | .ok (some v) =>
    if v = 0 then .ok none else .ok (some ⟨sym, v, impact v mcapCr, sector⟩)

/-- The inner `for` loop over one symbol's announcements. -/
def annRows (sym : String) (mcapCr : ℚ) (sector : String) :
    List String → Except Unit (List ImpactRow)
  | [] => .ok []
  | t :: ts =>
    match annRow sym mcapCr sector t with
    | .error e => .error e
    | .ok r =>
      match annRows sym mcapCr sector ts with
      | .error e => .error e
      | .ok rest => .ok (r.toList ++ rest)

/-- The per-symbol work item of the outer loop: the symbol, the outcome of
its quote request, and the `attchmntText` of its announcements. -/
structure SymTask where
  symbol : String
  resp : EquityResponse
  annTexts : List String

/-- oderbook.py:203-229, one iteration of `for sym in orders["symbol"]
.unique()`: `eq = fetch_nse_equity(sym); if not eq or not eq["marketCap"]:
continue` (so `None`, a missing market cap and a zero market cap are all
skipped); `market_cap_cr = eq["marketCap"] / 1e7`. -/
def rowsFor (t : SymTask) : Except Unit (List ImpactRow) :=
  match fetch_nse_equity t.resp with
  | none => .ok []
  | some eq =>
    match eq.marketCap with
    | none => .ok []
    | some mc =>
      if mc = 0 then .ok []
      else annRows t.symbol (mc / 10000000) eq.sector t.annTexts

/-- The outer loop over the distinct symbols, accumulating `results`. -/
def processSymbols : List SymTask → Except Unit (List ImpactRow)
  | [] => .ok []
  | t :: ts =>
    match rowsFor t with
    | .error e => .error e
    | .ok rs =>
      match processSymbols ts with
      | .error e => .error e
      | .ok rest => .ok (rs ++ rest)

/-! ## Screener financials fetch (OB.py:107-153) -/

/-- The dict initialised at OB.py:109-119: every field starts as `None`. -/
structure Financials where
  marketCap : Option String
  currentPrice : Option String
  stockPE : Option String
  industryPE : Option String
  bookValue : Option String
  roce : Option String
  roe : Option String
  dividendYield : Option String
  promoterHolding : Option String
  deriving DecidableEq

/-- All nine fields `None`. -/
def financialsInit : Financials :=
  ⟨none, none, none, none, none, none, none, none, none⟩

/-- Exact "is `n` a prefix of `h`". -/
def startsList : List Char → List Char → Bool
  | [], _ => true
  | _ :: _, [] => false
  | a :: as, c :: cs => (a == c) && startsList as cs

/-- Exact substring test (Python `needle in hay`). -/
def isSubl (n : List Char) : List Char → Bool
  | [] => startsList n []
  | c :: t => startsList n (c :: t) || isSubl n t

/-- Python `needle in hay` on strings. -/
def hasSub (needle hay : String) : Bool := isSubl needle.data hay.data

/-- OB.py:132-149: the `if/elif` chain matching a lowercased label against
the known field names. -/
def updFinancials (d : Financials) (label : String) (v : String) : Financials :=
  if hasSub "market cap" (label.toLower) then { d with marketCap := some v }
  else if hasSub "current price" (label.toLower) then { d with currentPrice := some v }
  else if hasSub "stock p/e" (label.toLower) then { d with stockPE := some v }
  else if hasSub "industry pe" (label.toLower) then { d with industryPE := some v }
  else if hasSub "book value" (label.toLower) then { d with bookValue := some v }
  else if hasSub "roce" (label.toLower) then { d with roce := some v }
  else if hasSub "roe" (label.toLower) then { d with roe := some v }
  else if hasSub "dividend yield" (label.toLower) then { d with dividendYield := some v }
  else if hasSub "promoter holding" (label.toLower) then { d with promoterHolding := some v }
  else d

/-- Outcome of the screener page request: any exception, or the scraped
`li` elements as (label text, optional number-span text) pairs. -/
inductive ScreenerResponse where
  | err
  | ok (items : List (String × Option String))

/-- OB.py:107-153 `fetch_financials_from_screener`: on any exception the
initial all-`None` dict is returned (`except: return data`); otherwise each
`li` with a number span updates the matching field. -/
def fetch_financials_from_screener : ScreenerResponse → Financials
  | .err => financialsInit
  | .ok items =>
    items.foldl
      (fun d it =>
        match it.2 with
        | none => d
        | some v => updFinancials d it.1 v)
      financialsInit

/-! ## Repeat-order aggregation -/

/-- Modelled from the spec: neither source file contains the optional
"group by symbol to count repeat announcements" step of §4.4; per the spec's
words, grouping a list of (symbol, order value) announcement rows by symbol
counts that symbol's announcements. -/
def repeatCount (sym : String) (anns : List (String × ℚ)) : Nat :=
  (anns.filter (fun a => a.1 == sym)).length

/-- Modelled from the spec: the per-symbol total order value of §4.4
("total order value summed correctly per symbol") — the sum of the order
values of the symbol's announcements. -/
def symbolTotal (sym : String) (anns : List (String × ℚ)) : ℚ :=
  ((anns.filter (fun a => a.1 == sym)).map (fun a => a.2)).sum

/-! ## Helper lemmas -/

/-- `divByHundred` agrees with division by 100. -/
theorem divByHundred_eq (q : ℚ) : divByHundred q = q / 100 := by
  rw [divByHundred, Rat.mkRat_eq_div]
  push_cast
  rw [← div_div, Rat.num_div_den]

/-- Inversion for `tryAlts`: a successful match picks some alternative whose
lowered form prefixes the input, and the continuation succeeds after it. -/
theorem tryAlts_eq_some {next : List Char → Option Caps} :
    ∀ (alts : List (List Char)) (s : List Char) (caps : Caps),
      tryAlts next alts s = some caps →
      ∃ a, a ∈ alts ∧ ciStarts a s = true ∧ next (s.drop a.length) = some caps := by
  intro alts
  induction alts with
  | nil => intro s caps h; simp [tryAlts] at h
  | cons a more ih =>
    intro s caps h
    rw [tryAlts] at h
    split at h
    · rename_i hc
      split at h
      · rename_i caps0 heq
        cases h
        exact ⟨a, List.mem_cons_self a more, hc, heq⟩
      · obtain ⟨b, hb, h1, h2⟩ := ih s caps h
        exact ⟨b, List.mem_cons_of_mem a hb, h1, h2⟩
    · obtain ⟨b, hb, h1, h2⟩ := ih s caps h
      exact ⟨b, List.mem_cons_of_mem a hb, h1, h2⟩

/-- Inversion for `tryAltsC`: as `tryAlts`, and the head capture is the
matched segment of the input. -/
theorem tryAltsC_eq_some {next : List Char → Option Caps} :
    ∀ (alts : List (List Char)) (s : List Char) (caps : Caps),
      tryAltsC next alts s = some caps →
      ∃ a caps', a ∈ alts ∧ ciStarts a s = true ∧
        next (s.drop a.length) = some caps' ∧ caps = s.take a.length :: caps' := by
  intro alts
  induction alts with
  | nil => intro s caps h; simp [tryAltsC] at h
  | cons a more ih =>
    intro s caps h
    rw [tryAltsC] at h
    split at h
    · rename_i hc
      split at h
      · rename_i caps0 heq
        cases h
        exact ⟨a, caps0, List.mem_cons_self a more, hc, heq, rfl⟩
      · obtain ⟨b, caps', hb, h1, h2, h3⟩ := ih s caps h
        exact ⟨b, caps', List.mem_cons_of_mem a hb, h1, h2, h3⟩
    · obtain ⟨b, caps', hb, h1, h2, h3⟩ := ih s caps h
      exact ⟨b, caps', List.mem_cons_of_mem a hb, h1, h2, h3⟩

/-- Inversion for `tryLens`: a successful greedy run match consumed some
`1 ≤ j ≤ k` characters and captured exactly them. -/
theorem tryLens_eq_some {next : List Char → Option Caps} {s : List Char} :
    ∀ (k : Nat) (caps : Caps),
      tryLens next s k = some caps →
      ∃ j caps', 1 ≤ j ∧ j ≤ k ∧ next (s.drop j) = some caps' ∧
        caps = s.take j :: caps' := by
  intro k
  induction k with
  | zero => intro caps h; simp [tryLens] at h
  | succ k ih =>
    intro caps h
    rw [tryLens] at h
    split at h
    · rename_i caps0 heq
      cases h
      exact ⟨k + 1, caps0, Nat.succ_le_succ (Nat.zero_le k), le_rfl, heq, rfl⟩
    · obtain ⟨j, caps', h1, h2, h3, h4⟩ := ih caps h
      exact ⟨j, caps', h1, Nat.le_succ_of_le h2, h3, h4⟩

/-- An empty pattern captures nothing. -/
theorem matchItems_nil_eq {s : List Char} {caps : Caps}
    (h : matchItems [] s = some caps) : caps = [] := by
  rw [matchItems] at h
  cases h
  rfl

/-- Inversion for an `opt` item: the rest of the pattern matched on a
suffix of the input (the same input or one character shorter). -/
theorem matchItems_opt_suffix {p : Char → Bool} {rest : List Item}
    {s : List Char} {caps : Caps} (h : matchItems (.opt p :: rest) s = some caps) :
    ∃ s', List.IsSuffix s' s ∧ matchItems rest s' = some caps := by
  cases s with
  | nil =>
    rw [matchItems] at h
    exact ⟨[], List.suffix_rfl, h⟩
  | cons c s' =>
    rw [matchItems] at h
    split at h
    · split at h
      · rename_i caps0 heq
        cases h
        exact ⟨s', List.suffix_cons c s', heq⟩
      · exact ⟨c :: s', List.suffix_rfl, h⟩
    · exact ⟨c :: s', List.suffix_rfl, h⟩

/-- Inversion for a `manyC` item: some nonempty prefix of the maximal class
run was consumed and captured, and the rest matched after it. -/
theorem matchItems_manyC_shape {p : Char → Bool} {rest : List Item}
    {s : List Char} {caps : Caps} (h : matchItems (.manyC p :: rest) s = some caps) :
    ∃ j caps', 1 ≤ j ∧ j ≤ (s.takeWhile p).length ∧
      matchItems rest (s.drop j) = some caps' ∧ caps = s.take j :: caps' := by
  rw [matchItems] at h
  exact tryLens_eq_some _ caps h

/-- The trailing `\s?literal` part of the value patterns captures nothing. -/
theorem matchItems_optlit_nil {p : Char → Bool} {alts : List (List Char)}
    {s : List Char} {caps : Caps}
    (h : matchItems [.opt p, .lit alts] s = some caps) : caps = [] := by
  obtain ⟨s', _, h2⟩ := matchItems_opt_suffix h
  rw [matchItems] at h2
  obtain ⟨a, _, _, h3⟩ := tryAlts_eq_some alts s' caps h2
  exact matchItems_nil_eq h3

/-- Characters of a prefix of the maximal `p`-run satisfy `p`. -/
theorem mem_take_of_le_takeWhile {p : Char → Bool} :
    ∀ (s : List Char) (j : Nat), j ≤ (s.takeWhile p).length →
      ∀ c ∈ s.take j, p c = true := by
  intro s
  induction s with
  | nil => intro j _ c hc; simp at hc
  | cons a t ih =>
    intro j hj c hc
    by_cases hp : p a = true
    · rw [List.takeWhile_cons, if_pos hp] at hj
      cases j with
      | zero => simp at hc
      | succ j' =>
        rw [List.take_succ_cons] at hc
        rcases List.mem_cons.mp hc with h | h
        · exact h ▸ hp
        · exact ih j' (Nat.le_of_succ_le_succ hj) c h
    · rw [List.takeWhile_cons, if_neg hp] at hj
      simp at hj
      subst hj
      simp at hc

/-- Inversion for `research`: a successful search matched at some suffix. -/
theorem research_suffix {pat : List Item} :
    ∀ (s : List Char) (caps : Caps), research pat s = some caps →
      ∃ s', List.IsSuffix s' s ∧ matchItems pat s' = some caps := by
  intro s
  induction s with
  | nil =>
    intro caps h
    rw [research] at h
    exact ⟨[], List.suffix_rfl, h⟩
  | cons c t ih =>
    intro caps h
    rw [research] at h
    split at h
    · rename_i caps0 heq
      cases h
      exact ⟨c :: t, List.suffix_rfl, heq⟩
    · obtain ⟨s', h1, h2⟩ := ih caps h
      exact ⟨s', h1.trans (List.suffix_cons c t), h2⟩

/-- Shape of a successful match of a `(alt)\s?(class+)\s?literal` pattern
(`pat1`, `pat3`, `eovPat`): the last capture is a nonempty run of class
characters drawn from the input. -/
theorem currencyPat_shape {A B : List (List Char)} {p q r : Char → Bool}
    {s : List Char} {caps : Caps}
    (h : matchItems [.litC A, .opt p, .manyC q, .opt r, .lit B] s = some caps) :
    ∃ g, caps.getLast? = some g ∧ g ≠ [] ∧ (∀ c ∈ g, q c = true) ∧
      ∀ c ∈ g, c ∈ s := by
  rw [matchItems] at h
  obtain ⟨a, caps1, _, _, h1, hc1⟩ := tryAltsC_eq_some A s caps h
  obtain ⟨s2, hsuf, h2⟩ := matchItems_opt_suffix h1
  obtain ⟨j, caps2, hj1, hj2, h3, hc2⟩ := matchItems_manyC_shape h2
  have hnil : caps2 = [] := matchItems_optlit_nil h3
  subst hnil
  subst hc2
  subst hc1
  refine ⟨s2.take j, by simp, ?_, ?_, ?_⟩
  · intro hemp
    rcases List.take_eq_nil_iff.mp hemp with h0 | h0
    · omega
    · subst h0
      simp at hj2
      omega
  · exact mem_take_of_le_takeWhile s2 j hj2
  · intro c hc
    have hs2 : c ∈ s2 := List.take_subset j s2 hc
    exact List.drop_subset a.length s (hsuf.subset hs2)

/-- Shape of a successful match of the bare `(class+)\s?literal` pattern
(`pat2`). -/
theorem barePat_shape {B : List (List Char)} {q r : Char → Bool}
    {s : List Char} {caps : Caps}
    (h : matchItems [.manyC q, .opt r, .lit B] s = some caps) :
    ∃ g, caps.getLast? = some g ∧ g ≠ [] ∧ (∀ c ∈ g, q c = true) ∧
      ∀ c ∈ g, c ∈ s := by
  obtain ⟨j, caps2, hj1, hj2, h3, hc2⟩ := matchItems_manyC_shape h
  have hnil : caps2 = [] := matchItems_optlit_nil h3
  subst hnil
  subst hc2
  refine ⟨s.take j, by simp, ?_, ?_, ?_⟩
  · intro hemp
    rcases List.take_eq_nil_iff.mp hemp with h0 | h0
    · omega
    · subst h0
      simp at hj2
      omega
  · exact mem_take_of_le_takeWhile s j hj2
  · exact fun c hc => List.take_subset j s hc

/-- The group handed to `float` by `extract_total_order_value` is a nonempty
run of `[\d,\.]` characters drawn from the input text. -/
theorem matchedNumeral_shape {t : List Char} {g : List Char} {b : Bool}
    (h : matchedNumeral t = some (g, b)) :
    g ≠ [] ∧ (∀ c ∈ g, dcd c = true) ∧ ∀ c ∈ g, c ∈ t := by
  rw [matchedNumeral] at h
  split at h
  · rename_i caps heq
    obtain ⟨s', hsuf, hm⟩ := research_suffix t caps heq
    obtain ⟨g0, hg0, hne, hq, hmem⟩ := currencyPat_shape hm
    cases h
    rw [hg0]
    exact ⟨by simpa using hne, by simpa using hq,
      fun c hc => hsuf.subset (by simpa using hmem c hc)⟩
  · split at h
    · rename_i caps heq
      obtain ⟨s', hsuf, hm⟩ := research_suffix t caps heq
      obtain ⟨g0, hg0, hne, hq, hmem⟩ := barePat_shape hm
      cases h
      rw [hg0]
      exact ⟨by simpa using hne, by simpa using hq,
        fun c hc => hsuf.subset (by simpa using hmem c hc)⟩
    · split at h
      · rename_i caps heq
        obtain ⟨s', hsuf, hm⟩ := research_suffix t caps heq
        obtain ⟨g0, hg0, hne, hq, hmem⟩ := currencyPat_shape hm
        cases h
        rw [hg0]
        exact ⟨by simpa using hne, by simpa using hq,
          fun c hc => hsuf.subset (by simpa using hmem c hc)⟩
      · cases h

/-- `float` succeeds on a nonempty all-digit string. -/
theorem pyFloat_digits_isSome {g : List Char} (h1 : g ≠ [])
    (h2 : ∀ c ∈ g, c.isDigit = true) : ∃ v, pyFloat g = some v := by
  have hcond : (∀ c ∈ g, c.isDigit = true ∨ c = '.') ∧
      (∃ c ∈ g, c.isDigit = true) ∧ g.count '.' ≤ 1 := by
    refine ⟨fun c hc => Or.inl (h2 c hc), ?_, ?_⟩
    · obtain ⟨c, hc⟩ := List.exists_mem_of_ne_nil g h1
      exact ⟨c, hc, h2 c hc⟩
    · have h0 : g.count '.' = 0 := by
        rw [List.count_eq_zero]
        intro hmem
        have hd := h2 '.' hmem
        simp at hd
      omega
  exact ⟨_, by rw [pyFloat, if_pos hcond]⟩

/-- Comma-stripping is the identity on all-digit strings. -/
theorem stripCommas_digits {g : List Char} (h : ∀ c ∈ g, c.isDigit = true) :
    stripCommas g = g := by
  rw [stripCommas, List.filter_eq_self]
  intro c hc
  have hd := h c hc
  have : c ≠ ',' := by
    intro he
    rw [he] at hd
    simp at hd
  simpa using this

/-! ## Claim theorems -/

/-- C10 (counterexample): `extract_total_order_value` does not return
normally on every input — on ", crore" the second pattern captures the
group ",", which strips to the empty string, and `float("")` raises
`ValueError`. -/
theorem c10_total_safety_counterexample :
    extract_total_order_value ", crore" = Except.error () := by decide

/-- C10 (amended): on every input containing no comma and no dot the
function returns normally with a float or `None`; in general the captured
numeral group of class `[\d,\.]` can strip to a string that is not a valid
float literal, and then the conversion raises. -/
theorem c10_total_safety_amended :
    ∀ text : String, (∀ c ∈ text.data, c ≠ ',' ∧ c ≠ '.') →
      ∃ o, extract_total_order_value text = Except.ok o := by
  intro t ht
  rcases hm : matchedNumeral t.data with _ | ⟨g, b⟩
  · exact ⟨none, by rw [extract_total_order_value, hm]⟩
  · obtain ⟨hne, hdcd, hmem⟩ := matchedNumeral_shape hm
    have hdig : ∀ c ∈ g, c.isDigit = true := by
      intro c hc
      have h1 := hdcd c hc
      have h2 := ht c (hmem c hc)
      simp [dcd] at h1
      rcases h1 with (h1 | h1) | h1
      · exact h1
      · exact absurd h1 h2.1
      · exact absurd h1 h2.2
    have hstrip : stripCommas g = g := stripCommas_digits hdig
    obtain ⟨v, hv⟩ := pyFloat_digits_isSome hne hdig
    refine ⟨some (if b = true then round2 (divByHundred v) else round2 v), ?_⟩
    simp only [extract_total_order_value, hm, hstrip, hv]

/-- C10 (witness): a comma- and dot-free text on which the amended theorem
yields a normal return. -/
theorem c10_safety_witness :
    ∃ o, extract_total_order_value "won ₹999 crore order" = Except.ok o :=
  c10_total_safety_amended "won ₹999 crore order" (by decide)

/-- C1 (counterexample): the claimed behaviour does not hold for every text
and both variants — `extract_order_value` has no lakh pattern at all and
returns `None` on "₹50 lakh", and on a text that merely contains
"₹120 crore" after an earlier currency match `extract_total_order_value`
returns the leftmost match (500), not 120. -/
theorem c1_order_value_counterexample :
    extract_order_value "₹50 lakh" = Except.ok none ∧
    (none : Option ℚ) ≠ some (mkRat 1 2) ∧
    extract_total_order_value "Rs 500 crore and ₹120 crore" =
      Except.ok (some 500) ∧
    some (500 : ℚ) ≠ some (120 : ℚ) := by
  refine ⟨by decide, by decide, by decide, by decide⟩

/-- C1 (amended): on the text "₹120 crore" itself (where it is the leftmost
match) both variants return 120.0; on "₹50 lakh",
`extract_total_order_value` returns 0.5 (the lakh match divided by 100)
while `extract_order_value`, which has no lakh pattern, returns `None`. -/
theorem c1_order_value_amended :
    extract_total_order_value "₹120 crore" = Except.ok (some 120) ∧
    extract_order_value "₹120 crore" = Except.ok (some 120) ∧
    extract_total_order_value "₹50 lakh" = Except.ok (some (mkRat 1 2)) ∧
    extract_order_value "₹50 lakh" = Except.ok none := by
  refine ⟨by decide, by decide, by decide, by decide⟩

/-- C3 (counterexample): on "within 2 years" `extract_completion_time`
returns "2 year" (its unit alternation lists `year` before `years`), not
"2 years"; and on keyword-free text `extract_total_duration` returns
"Not Found", not "Not Specified" — and it matches even keyword-free
"<N> years" phrases via its fourth pattern. -/
theorem c3_duration_counterexample :
    extract_completion_time "within 2 years" = "2 year" ∧
    "2 year" ≠ "2 years" ∧
    extract_total_duration "completed recently" = "Not Found" ∧
    "Not Found" ≠ "Not Specified" ∧
    extract_total_duration "completed 5 years ago" = "5 years" := by
  refine ⟨by decide, by decide, by decide, by decide, by decide⟩

/-- C3 (amended): `extract_total_duration "within 2 years" = "2 years"` but
`extract_completion_time "within 2 years" = "2 year"`; when none of its four
patterns matches, `extract_total_duration` returns the sentinel
"Not Found"; when its single pattern does not match,
`extract_completion_time` returns the sentinel "Not Specified". -/
theorem c3_duration_amended :
    extract_total_duration "within 2 years" = "2 years" ∧
    extract_completion_time "within 2 years" = "2 year" ∧
    (∀ t : String, research durPat1 t.data = none →
      research durPat2 t.data = none → research durPat3 t.data = none →
      research durPat4 t.data = none → extract_total_duration t = "Not Found") ∧
    (∀ t : String, research ctPat t.data = none →
      extract_completion_time t = "Not Specified") := by
  refine ⟨by decide, by decide, ?_, ?_⟩
  · intro t h1 h2 h3 h4
    rw [extract_total_duration, h1, h2, h3, h4]
  · intro t h1
    rw [extract_completion_time, h1]

/-- C3 (witness): a text with no duration phrase, on which the amended
theorem yields both sentinels. -/
theorem c3_duration_witness :
    extract_total_duration "hello world" = "Not Found" ∧
    extract_completion_time "hello world" = "Not Specified" :=
  ⟨c3_duration_amended.2.2.1 "hello world" (by decide) (by decide) (by decide)
      (by decide),
    c3_duration_amended.2.2.2 "hello world" (by decide)⟩

/-- C5: when none of the three value patterns matches the text,
`extract_total_order_value` returns `None` without raising, and likewise
for `extract_order_value` and its single pattern. -/
theorem c5_no_match_returns_none :
    (∀ t : String, research pat1 t.data = none → research pat2 t.data = none →
      research pat3 t.data = none →
      extract_total_order_value t = Except.ok none) ∧
    (∀ t : String, research eovPat t.data = none →
      extract_order_value t = Except.ok none) := by
  constructor
  · intro t h1 h2 h3
    rw [extract_total_order_value, matchedNumeral, h1, h2, h3]
  · intro t h1
    rw [extract_order_value, h1]

/-- C5 (witness): a text matched by no value pattern. -/
theorem c5_no_match_witness :
    extract_total_order_value "no figures disclosed" = Except.ok none ∧
    extract_order_value "no figures disclosed" = Except.ok none :=
  ⟨c5_no_match_returns_none.1 "no figures disclosed" (by decide) (by decide)
      (by decide),
    c5_no_match_returns_none.2 "no figures disclosed" (by decide)⟩

/-- C2: for positive order value and market cap the impact score lies in
[0, 100], and the score is monotone in the order-value-to-market-cap
ratio (other inputs fixed or not). -/
theorem c2_impact_bounds_monotone :
    (∀ ov mc : ℚ, 0 < ov → 0 < mc →
      0 ≤ impact ov mc ∧ impact ov mc ≤ 100) ∧
    (∀ ov1 mc1 ov2 mc2 : ℚ, ov1 / mc1 ≤ ov2 / mc2 →
      impact ov1 mc1 ≤ impact ov2 mc2) := by
  constructor
  · intro ov mc h1 h2
    rw [impact]
    refine ⟨le_min (by positivity) (by norm_num), min_le_right _ _⟩
  · intro a b c d h
    rw [impact, impact]
    exact min_le_min (by linarith) le_rfl

/-- C2 (witness): concrete positive inputs and a concrete ratio increase. -/
theorem c2_impact_witness :
    (0 ≤ impact 10 100 ∧ impact 10 100 ≤ 100) ∧
    impact 10 100 ≤ impact 20 100 :=
  ⟨c2_impact_bounds_monotone.1 10 100 (by norm_num) (by norm_num),
    c2_impact_bounds_monotone.2 10 100 20 100 (by norm_num)⟩

/-- Inserting into a list moves the new row past strictly-smaller scores
only, so the subsequence of rows with any fixed score is preserved (with
the inserted row, when it has that score, in front). -/
theorem filter_orderedInsert (q : ℚ) (a : ScoredRow) :
    ∀ m : List ScoredRow,
      (List.orderedInsert byScore a m).filter (fun r => r.score == q) =
        if a.score == q then a :: m.filter (fun r => r.score == q)
        else m.filter (fun r => r.score == q) := by
  intro m
  induction m with
  | nil =>
    by_cases ha : a.score == q <;>
      simp [List.orderedInsert, List.filter_cons, ha]
  | cons b t ih =>
    rw [List.orderedInsert]
    by_cases hab : byScore a b
    · rw [if_pos hab]
      by_cases ha : a.score == q <;> simp [List.filter_cons, ha]
    · rw [if_neg hab]
      by_cases ha : a.score == q
      · have haq : a.score = q := beq_iff_eq.mp ha
        have hb : (b.score == q) = false := by
          rw [beq_eq_false_iff_ne]
          intro hbq
          rw [byScore] at hab
          exact hab (le_of_eq (haq.trans hbq.symm))
        simp [List.filter_cons, hb, ih, ha]
      · simp [List.filter_cons, ih, ha]

/-- Insertion sort is stable: the subsequence of rows carrying any fixed
score is unchanged. -/
theorem filter_insertionSort (q : ℚ) :
    ∀ m : List ScoredRow,
      (List.insertionSort byScore m).filter (fun r => r.score == q) =
        m.filter (fun r => r.score == q) := by
  intro m
  induction m with
  | nil => rfl
  | cons a t ih =>
    rw [List.insertionSort, filter_orderedInsert q a]
    by_cases ha : a.score == q <;> simp [List.filter_cons, ha, ih]

/-- C6: when the order value is absent, or the market-cap string is absent
or unparsable, the order-percentage cell is the "NA" sentinel (and the
computation is total — no exception escapes). -/
theorem c6_missing_operands_na :
    ∀ (ov : Option ℚ) (ms : Option String),
      ov = none ∨ parse_mcap ms = none →
      order_pct ov (parse_mcap ms) = Pct.NA := by
  intro ov ms h
  rcases h with h | h
  · subst h
    rw [order_pct]
    simp [pyTruthy]
  · rw [h, order_pct]
    simp [pyTruthy]

/-- C6 (witness): a present order value with an unparsable market-cap
string. -/
theorem c6_missing_operands_witness :
    order_pct (some 5) (parse_mcap (some "n/a")) = Pct.NA :=
  c6_missing_operands_na (some 5) (some "n/a") (Or.inr (by decide))

/-- C7 (counterexample): an empty fetch result surfaces exactly like an
upstream block — both produce the blocked/rate-limited message, so the
empty outcome is conflated with the rejection outcome. -/
theorem c7_outcomes_counterexample :
    mainOutcome (NseResponse.records []) = mainOutcome NseResponse.blocked ∧
    mainOutcome (NseResponse.records []) = Surfaced.blockedMsg := ⟨rfl, rfl⟩

/-- C7 (amended): only success-with-records is distinguished; an empty
result raises (`KeyError` on the missing date column of an empty frame) and
reaches the same blocked/rate-limited handler as an upstream rejection. -/
theorem c7_outcomes_amended :
    (∀ (a : Announcement) (rest : List Announcement),
      mainOutcome (NseResponse.records (a :: rest)) =
        Surfaced.table (a :: rest)) ∧
    mainOutcome (NseResponse.records []) = Surfaced.blockedMsg ∧
    mainOutcome NseResponse.blocked = Surfaced.blockedMsg :=
  ⟨fun _ _ => rfl, rfl, rfl⟩

/-- C8: a failed per-symbol financial fetch leaves the processing of every
other symbol unchanged (the failed symbol contributes nothing and iteration
continues), because `fetch_nse_equity` converts any exception to `None` and
`fetch_financials_from_screener` converts it to the all-`None` record. -/
theorem c8_fetch_failure_isolated :
    (∀ (l1 : List SymTask) (t : SymTask) (l2 : List SymTask),
      t.resp = EquityResponse.err →
      processSymbols (l1 ++ t :: l2) = processSymbols (l1 ++ l2)) ∧
    fetch_nse_equity EquityResponse.err = none ∧
    fetch_financials_from_screener ScreenerResponse.err = financialsInit := by
  refine ⟨?_, rfl, rfl⟩
  intro l1 t l2 ht
  induction l1 with
  | nil =>
    have hr : rowsFor t = Except.ok [] := by
      rw [rowsFor, ht]
      rfl
    simp only [List.nil_append, processSymbols, hr]
    cases hp : processSymbols l2 with
    | error e => rfl
    | ok rest => rfl
  | cons x xs ih =>
    simp only [List.cons_append, processSymbols, List.append_eq, ih]

/-- C8 (witness): a concrete run where the middle symbol's fetch fails and
the surrounding symbols are still processed. -/
theorem c8_isolation_witness :
    processSymbols
      [⟨"LT", EquityResponse.ok (some 1000) (some "Capital Goods"),
          ["won ₹120 crore order"]⟩,
        ⟨"ERR", EquityResponse.err, ["whatever"]⟩,
        ⟨"HAL", EquityResponse.ok (some 2000) none, []⟩] =
    processSymbols
      [⟨"LT", EquityResponse.ok (some 1000) (some "Capital Goods"),
          ["won ₹120 crore order"]⟩,
        ⟨"HAL", EquityResponse.ok (some 2000) none, []⟩] :=
  c8_fetch_failure_isolated.1
    [⟨"LT", EquityResponse.ok (some 1000) (some "Capital Goods"),
        ["won ₹120 crore order"]⟩]
    ⟨"ERR", EquityResponse.err, ["whatever"]⟩
    [⟨"HAL", EquityResponse.ok (some 2000) none, []⟩] rfl

/-- C9: grouping 3 "LT" announcements and 1 "HAL" announcement by symbol
yields counts 3 and 1, and the per-symbol totals are the sums of the
corresponding order values. -/
theorem c9_repeat_aggregation :
    ∀ a b c d : ℚ,
      repeatCount "LT" [("LT", a), ("LT", b), ("HAL", c), ("LT", d)] = 3 ∧
      repeatCount "HAL" [("LT", a), ("LT", b), ("HAL", c), ("LT", d)] = 1 ∧
      symbolTotal "LT" [("LT", a), ("LT", b), ("HAL", c), ("LT", d)] =
        a + b + d ∧
      symbolTotal "HAL" [("LT", a), ("LT", b), ("HAL", c), ("LT", d)] = c := by
  intro a b c d
  refine ⟨?_, ?_, ?_, ?_⟩
  · simp [repeatCount]
  · simp [repeatCount]
  · simp [symbolTotal]
    ring
  · simp [symbolTotal]
